import Mathlib

/-!
Verification of the explicit Euler integrator for the linear harmonic
oscillator found in code cell 8 of the lecture notebook:

  h = t[-1]/t.size
  xE = np.empty_like(x)
  yE = np.empty_like(y)
  xE[0] = x[0]
  yE[0] = y[0]
  for k,tk in enumerate(t[:-1]):
      xE[k+1] = xE[k] + h * yE[k]
      yE[k+1] = yE[k] - h * omega**2 * xE[k]

with t = np.linspace(start=0, stop=2*np.pi, num=N) from code cell 4.

Arrays are modelled as total maps from indices to values; the contents of the
freshly allocated (np.empty_like, hence uninitialized) arrays are an explicit
junk parameter. Arithmetic is modelled exactly, over an arbitrary commutative
ring for the recurrence itself, over ℚ where order is needed and over ℝ where
the concrete value 2π appears.
-/

namespace Module04

/-- Pure explicit Euler step for the harmonic oscillator: the recurrence
implemented by the loop body of code cell 8, read as a function of the current
state pair, x_next = x + h*y and y_next = y - h*omega^2*x. -/
def eulerStep {R : Type} [CommRing R] (ω h : R) (s : R × R) : R × R :=
  (s.1 + h * s.2, s.2 - h * ω ^ 2 * s.1)

/-- Hypothetical scalar-variable rewrite that overwrites x before computing y,
so the y update reads the already-advanced x. This is NOT what code cell 8
does; it is used to show the distinction matters. -/
def badEulerStep {R : Type} [CommRing R] (ω h : R) (s : R × R) : R × R :=
  let x := s.1 + h * s.2
  (x, s.2 - h * ω ^ 2 * x)

/-- Body of the integration loop of code cell 8 at loop index k, acting on the
pair of arrays (xE, yE). The y write reads xE[k] from the array AFTER the
x write has been stored, exactly as the Python statements execute in order;
since the x write targets index k+1 and the read is at index k, the read still
sees the old value. -/
def eulerLoopBody {R : Type} [CommRing R] (ω h : R)
    (a : (ℕ → R) × (ℕ → R)) (k : ℕ) : (ℕ → R) × (ℕ → R) :=
  let xE := Function.update a.1 (k + 1) (a.1 k + h * a.2 k)
  let yE := Function.update a.2 (k + 1) (a.2 k - h * ω ^ 2 * xE k)
  (xE, yE)

/-- The loop "for k,tk in enumerate(t[:-1])" of code cell 8: the body runs for
k = 0, ..., N-2, where N = t.size is the number of samples. -/
def eulerLoop {R : Type} [CommRing R] (ω h : R) (N : ℕ)
    (xE yE : ℕ → R) : (ℕ → R) × (ℕ → R) :=
  (List.range (N - 1)).foldl (eulerLoopBody ω h) (xE, yE)

/-- Code cell 8 in full: allocate xE, yE with arbitrary junk contents jx, jy
(np.empty_like gives uninitialized storage), store the initial condition at
index 0, then run the integration loop. -/
def eulerRun {R : Type} [CommRing R] (ω h x0 y0 : R) (N : ℕ)
    (jx jy : ℕ → R) : (ℕ → R) × (ℕ → R) :=
  eulerLoop ω h N (Function.update jx 0 x0) (Function.update jy 0 y0)

/-- The trajectory produced by code cell 8, read off as the ordered sequence
of state pairs (xE[k], yE[k]) for k = 0, ..., N-1. -/
def eulerTraj {R : Type} [CommRing R] (ω h x0 y0 : R) (N : ℕ)
    (jx jy : ℕ → R) : List (R × R) :=
  (List.range N).map fun k =>
    ((eulerRun ω h x0 y0 N jx jy).1 k, (eulerRun ω h x0 y0 N jx jy).2 k)

/-- Loop invariant: after m iterations of the loop body, every array slot
i ≤ m holds the i-th iterate of the pure Euler step applied to the initial
condition. -/
lemma eulerLoop_foldl_apply {R : Type} [CommRing R] (ω h x0 y0 : R)
    (jx jy : ℕ → R) :
    ∀ m i, i ≤ m →
      (((List.range m).foldl (eulerLoopBody ω h)
          (Function.update jx 0 x0, Function.update jy 0 y0)).1 i,
       ((List.range m).foldl (eulerLoopBody ω h)
          (Function.update jx 0 x0, Function.update jy 0 y0)).2 i)
        = (eulerStep ω h)^[i] (x0, y0) := by
  intro m
  induction m with
  | zero =>
    intro i hi
    interval_cases i
    simp
  | succ m ih =>
    intro i hi
    rw [List.range_succ, List.foldl_append, List.foldl_cons, List.foldl_nil]
    set P := (List.range m).foldl (eulerLoopBody ω h)
      (Function.update jx 0 x0, Function.update jy 0 y0) with hP
    by_cases hcase : i = m + 1
    · subst hcase
      have hm := ih m le_rfl
      have hmne : m ≠ m + 1 := by omega
      simp only [eulerLoopBody, Function.update_same, Function.update_noteq hmne]
      rw [Function.iterate_succ_apply', ← hm]
      rfl
    · have hi' : i ≤ m := by omega
      have hne : i ≠ m + 1 := hcase
      simp only [eulerLoopBody, Function.update_noteq hne]
      exact ih i hi'

/-- The arrays produced by code cell 8 agree, at every index below N, with the
pure iteration of the Euler step from the initial condition. -/
lemma eulerRun_apply {R : Type} [CommRing R] (ω h x0 y0 : R) (jx jy : ℕ → R)
    (N k : ℕ) (hk : k < N) :
    ((eulerRun ω h x0 y0 N jx jy).1 k, (eulerRun ω h x0 y0 N jx jy).2 k)
      = (eulerStep ω h)^[k] (x0, y0) :=
  eulerLoop_foldl_apply ω h x0 y0 jx jy (N - 1) k (by omega)

/-- With ω = 0 the pure step iterates to linear drift in x at constant y. -/
lemma eulerStep_iterate_omega_zero {R : Type} [CommRing R] (h x0 y0 : R)
    (k : ℕ) :
    (eulerStep (0 : R) h)^[k] (x0, y0) = (x0 + (k : R) * h * y0, y0) := by
  induction k with
  | zero => simp
  | succ k ih =>
    rw [Function.iterate_succ_apply', ih]
    simp only [eulerStep, Prod.mk.injEq]
    constructor
    · push_cast
      ring
    · ring

/-- With h = 0 the pure step is the identity map. -/
lemma eulerStep_iterate_h_zero {R : Type} [CommRing R] (ω x0 y0 : R) (k : ℕ) :
    (eulerStep ω (0 : R))^[k] (x0, y0) = (x0, y0) := by
  induction k with
  | zero => simp
  | succ k ih =>
    rw [Function.iterate_succ_apply', ih]
    simp [eulerStep]

/-- Squared energy norm of a state: the weighted norm ω²x² + y² adapted to
the oscillator of frequency ω. -/
def energySq {R : Type} [CommRing R] (ω : R) (s : R × R) : R :=
  ω ^ 2 * s.1 ^ 2 + s.2 ^ 2

/-- Squared Euclidean norm of a state. -/
def normSq {R : Type} [CommRing R] (s : R × R) : R :=
  s.1 ^ 2 + s.2 ^ 2

/-- One Euler step multiplies the squared energy norm by exactly
1 + h²ω², for every state and every ω, h. -/
lemma energySq_eulerStep {R : Type} [CommRing R] (ω h : R) (s : R × R) :
    energySq ω (eulerStep ω h s) = (1 + h ^ 2 * ω ^ 2) * energySq ω s := by
  simp only [energySq, eulerStep]
  ring

/-- For ω ≠ 0 the squared energy norm of a nonzero state is positive. -/
lemma energySq_pos (ω : ℚ) (s : ℚ × ℚ) (hω : ω ≠ 0) (hs : s ≠ (0, 0)) :
    0 < energySq ω s := by
  rcases s with ⟨x, y⟩
  by_cases hy : y = 0
  · subst hy
    have hx : x ≠ 0 := by simpa using hs
    have hx2 : 0 < ω ^ 2 * x ^ 2 := by positivity
    simpa [energySq] using hx2
  · have hy2 : 0 < y ^ 2 := by positivity
    have hx2 : 0 ≤ ω ^ 2 * x ^ 2 := by positivity
    simp only [energySq]
    nlinarith

/-- The squared energy norm stays positive along the pure iteration. -/
lemma energySq_iterate_pos (ω h x0 y0 : ℚ) (hω : ω ≠ 0)
    (hs : (x0, y0) ≠ ((0 : ℚ), (0 : ℚ))) (k : ℕ) :
    0 < energySq ω ((eulerStep ω h)^[k] (x0, y0)) := by
  induction k with
  | zero => simpa using energySq_pos ω (x0, y0) hω hs
  | succ k ih =>
    rw [Function.iterate_succ_apply', energySq_eulerStep]
    have hf : (0 : ℚ) < 1 + h ^ 2 * ω ^ 2 := by positivity
    exact mul_pos hf ih

/-- The time grid of code cell 4, t = np.linspace(start=0, stop=2*pi, num=N):
sample k sits at start + k * (stop - start)/(num - 1). The value of np.pi is
passed as the parameter pi1, instantiated with Real.pi in the theorems. -/
def tGrid {R : Type} [Field R] (pi1 : R) (N : ℕ) (k : ℕ) : R :=
  0 + (2 * pi1 - 0) / ((N - 1 : ℕ) : R) * (k : R)

/-- The step size of code cell 8, h = t[-1] / t.size. -/
def hUsed {R : Type} [Field R] (pi1 : R) (N : ℕ) : R :=
  tGrid pi1 N (N - 1) / (N : R)

/-- The last grid point t[-1] is exactly the stop value 2*pi. -/
lemma tGrid_last {R : Type} [Field R] [CharZero R] (pi1 : R) (N : ℕ)
    (hN : 1 < N) : tGrid pi1 N (N - 1) = 2 * pi1 := by
  have h0 : ((N - 1 : ℕ) : R) ≠ 0 := by
    have hne : N - 1 ≠ 0 := by omega
    exact_mod_cast hne
  simp only [tGrid, sub_zero, zero_add]
  exact div_mul_cancel₀ _ h0

/-- The step size actually used is 2*pi/N. -/
lemma hUsed_eq {R : Type} [Field R] [CharZero R] (pi1 : R) (N : ℕ)
    (hN : 1 < N) : hUsed pi1 N = 2 * pi1 / (N : R) := by
  rw [hUsed, tGrid_last pi1 N hN]

/-- C1: one application of the loop body of code cell 8 at index k writes to
slot k+1 exactly the state given by the recurrence x_next = x_k + h*y_k and
y_next = y_k - h*ω^2*x_k — the pure Euler step of the slot-k state — and
changes no other slot; it is a pure function of its inputs with no other
dependence and no side effects. -/
theorem euler_body_step_formula {R : Type} [CommRing R] (ω h : R)
    (a : (ℕ → R) × (ℕ → R)) (k : ℕ) :
    ((eulerLoopBody ω h a k).1 (k + 1), (eulerLoopBody ω h a k).2 (k + 1))
        = eulerStep ω h (a.1 k, a.2 k) ∧
    (eulerLoopBody ω h a k).1 (k + 1) = a.1 k + h * a.2 k ∧
    (eulerLoopBody ω h a k).2 (k + 1) = a.2 k - h * ω ^ 2 * a.1 k ∧
    ∀ j, j ≠ k + 1 →
      (eulerLoopBody ω h a k).1 j = a.1 j ∧
      (eulerLoopBody ω h a k).2 j = a.2 j := by
  have hkne : k ≠ k + 1 := by omega
  refine ⟨?_, ?_, ?_, ?_⟩
  · simp [eulerLoopBody, eulerStep, Function.update_noteq hkne]
  · simp [eulerLoopBody]
  · simp [eulerLoopBody, Function.update_noteq hkne]
  · intro j hj
    constructor <;> simp [eulerLoopBody, Function.update_noteq hj]

/-- C2: the generated trajectory has length N, its first element is exactly
the supplied initial condition, and its k-th element is the k-th iterate of
the Euler step, so the step is applied exactly N-1 times across the
trajectory. -/
theorem euler_traj_contract {R : Type} [CommRing R] (ω h x0 y0 : R)
    (jx jy : ℕ → R) (N : ℕ) (hN : 1 ≤ N) :
    (eulerTraj ω h x0 y0 N jx jy).length = N ∧
    (eulerTraj ω h x0 y0 N jx jy).head? = some (x0, y0) ∧
    ∀ k, k < N →
      (eulerTraj ω h x0 y0 N jx jy)[k]?
        = some ((eulerStep ω h)^[k] (x0, y0)) := by
  have hget : ∀ k, k < N →
      (eulerTraj ω h x0 y0 N jx jy)[k]?
        = some ((eulerStep ω h)^[k] (x0, y0)) := by
    intro k hk
    simp only [eulerTraj, List.getElem?_map, List.getElem?_range hk,
      Option.map_some']
    rw [eulerRun_apply ω h x0 y0 jx jy N k hk]
  refine ⟨by simp [eulerTraj], ?_, hget⟩
  have h0 := hget 0 (by omega)
  rw [List.head?_eq_getElem?]
  simpa using h0

/-- Closed instance of the trajectory contract at ω = 1, h = 1, initial state
(0, 1), N = 3, junk contents 5. -/
theorem euler_traj_contract_witness :
    1 ≤ 3 ∧
    ((eulerTraj (1 : ℤ) 1 0 1 3 (fun _ => 5) (fun _ => 5)).length = 3 ∧
     (eulerTraj (1 : ℤ) 1 0 1 3 (fun _ => 5) (fun _ => 5)).head?
        = some (0, 1) ∧
     ∀ k, k < 3 →
       (eulerTraj (1 : ℤ) 1 0 1 3 (fun _ => 5) (fun _ => 5))[k]?
         = some ((eulerStep (1 : ℤ) 1)^[k] (0, 1))) :=
  ⟨by decide,
   euler_traj_contract 1 1 0 1 (fun _ => 5) (fun _ => 5) 3 (by decide)⟩

/-- C7: with N = 1 the loop body never runs and the trajectory is exactly the
one-element list holding the initial state, for every ω, h and junk
contents. -/
theorem euler_single_point_traj {R : Type} [CommRing R] (ω h x0 y0 : R)
    (jx jy : ℕ → R) :
    eulerTraj ω h x0 y0 1 jx jy = [(x0, y0)] := by
  have h0 := eulerRun_apply ω h x0 y0 jx jy 1 0 (by omega)
  simp only [Function.iterate_zero, id_eq] at h0
  have hr : List.range 1 = [0] := rfl
  simp [eulerTraj, hr, h0]

/-- C8: the trajectory is a deterministic function of the inputs ω, h,
initial state and N alone — in particular it does not depend on the junk
contents the uninitialized arrays start with, so two runs with identical
inputs produce identical output sequences. -/
theorem euler_deterministic {R : Type} [CommRing R] (ω h x0 y0 : R)
    (N : ℕ) (jx jy jx1 jy1 : ℕ → R) :
    eulerTraj ω h x0 y0 N jx jy = eulerTraj ω h x0 y0 N jx1 jy1 := by
  simp only [eulerTraj]
  refine List.map_congr_left ?_
  intro k hk
  have hk1 : k < N := List.mem_range.mp hk
  exact (eulerRun_apply ω h x0 y0 jx jy N k hk1).trans
    (eulerRun_apply ω h x0 y0 jx1 jy1 N k hk1).symm

/-- C4: with ω = 1, initial state (1, 0), the step size h = t[-1]/t.size of
code cell 8 (equal to 2π/100) and N = 100, the element at index 1 of the
generated trajectory is exactly (1, -h) = (1, -2π/100). -/
theorem euler_first_step_value :
    (eulerTraj (1 : ℝ) (hUsed Real.pi 100) 1 0 100 (fun _ => 0)
        (fun _ => 0))[1]? = some (1, -(2 * Real.pi / 100)) ∧
    hUsed Real.pi 100 = 2 * Real.pi / 100 := by
  have hH : hUsed Real.pi 100 = 2 * Real.pi / 100 := by
    have h1 := hUsed_eq Real.pi 100 (by norm_num)
    simpa using h1
  refine ⟨?_, hH⟩
  have h1 := eulerRun_apply (1 : ℝ) (hUsed Real.pi 100) 1 0 (fun _ => 0)
    (fun _ => 0) 100 1 (by norm_num)
  simp only [eulerTraj, List.getElem?_map,
    List.getElem?_range (show 1 < 100 by norm_num), Option.map_some']
  rw [h1, Function.iterate_one, hH]
  simp only [eulerStep, Option.some_inj, Prod.mk.injEq]
  constructor <;> ring

/-- C5: with ω = 0 the arrays of code cell 8 hold, at every index k < N, the
closed form x_k = x_0 + k*h*y_0 and y_k = y_0. -/
theorem euler_omega_zero_closed_form {R : Type} [CommRing R] (h x0 y0 : R)
    (jx jy : ℕ → R) (N k : ℕ) (hk : k < N) :
    ((eulerRun (0 : R) h x0 y0 N jx jy).1 k,
     (eulerRun (0 : R) h x0 y0 N jx jy).2 k)
        = (x0 + (k : R) * h * y0, y0) := by
  rw [eulerRun_apply (0 : R) h x0 y0 jx jy N k hk,
    eulerStep_iterate_omega_zero]

/-- Closed instance of the ω = 0 closed form at h = 3, initial state (5, 7),
N = 4, k = 2, junk contents 11. -/
theorem euler_omega_zero_closed_form_witness :
    2 < 4 ∧
    ((eulerRun (0 : ℤ) 3 5 7 4 (fun _ => 11) (fun _ => 11)).1 2,
     (eulerRun (0 : ℤ) 3 5 7 4 (fun _ => 11) (fun _ => 11)).2 2)
        = (5 + ((2 : ℕ) : ℤ) * 3 * 7, 7) :=
  ⟨by decide,
   euler_omega_zero_closed_form 3 5 7 (fun _ => 11) (fun _ => 11) 4 2
     (by decide)⟩

/-- C6: with h = 0 every element of the generated trajectory equals the
initial state, for every ω, N and junk contents. -/
theorem euler_h_zero_constant {R : Type} [CommRing R] (ω x0 y0 : R)
    (jx jy : ℕ → R) (N : ℕ) (s : R × R)
    (hs : s ∈ eulerTraj ω 0 x0 y0 N jx jy) : s = (x0, y0) := by
  simp only [eulerTraj, List.mem_map] at hs
  obtain ⟨k, hk, rfl⟩ := hs
  have hk1 : k < N := List.mem_range.mp hk
  rw [eulerRun_apply ω (0 : R) x0 y0 jx jy N k hk1,
    eulerStep_iterate_h_zero]

/-- Closed instance of the h = 0 constancy at ω = 3, initial state (5, 7),
N = 2, junk contents 9. -/
theorem euler_h_zero_constant_witness :
    ((5 : ℤ), (7 : ℤ)) ∈ eulerTraj (3 : ℤ) 0 5 7 2 (fun _ => 9) (fun _ => 9) ∧
    ((5 : ℤ), (7 : ℤ)) = (5, 7) :=
  ⟨by decide,
   euler_h_zero_constant 3 5 7 (fun _ => 9) (fun _ => 9) 2 (5, 7) (by decide)⟩

/-- C9: the imperative in-place array loop of code cell 8 refines the pure
iteration: at every index k < N the array pair (xE[k], yE[k]) is the k-th
iterate of the pure Euler step at the initial state; and the scalar rewrite
that overwrites x before computing y computes a different recurrence, as the
concrete disagreement at ω = 1, h = 1, state (1, 1) shows. -/
theorem euler_loop_refines_pure_iterate {R : Type} [CommRing R]
    (ω h x0 y0 : R) (jx jy : ℕ → R) (N k : ℕ) (hk : k < N) :
    ((eulerRun ω h x0 y0 N jx jy).1 k, (eulerRun ω h x0 y0 N jx jy).2 k)
        = (eulerStep ω h)^[k] (x0, y0) ∧
    badEulerStep (1 : ℤ) 1 (1, 1) ≠ eulerStep (1 : ℤ) 1 (1, 1) :=
  ⟨eulerRun_apply ω h x0 y0 jx jy N k hk, by decide⟩

/-- Closed instance of the refinement at ω = 2, h = 3, initial state (1, 1),
N = 3, k = 2, junk contents 4. -/
theorem euler_loop_refines_pure_iterate_witness :
    2 < 3 ∧
    (((eulerRun (2 : ℤ) 3 1 1 3 (fun _ => 4) (fun _ => 4)).1 2,
      (eulerRun (2 : ℤ) 3 1 1 3 (fun _ => 4) (fun _ => 4)).2 2)
        = (eulerStep (2 : ℤ) 3)^[2] (1, 1) ∧
     badEulerStep (1 : ℤ) 1 (1, 1) ≠ eulerStep (1 : ℤ) 1 (1, 1)) :=
  ⟨by decide,
   euler_loop_refines_pure_iterate 2 3 1 1 (fun _ => 4) (fun _ => 4) 3 2
     (by decide)⟩

/-- C3 (counterexample): with ω = 1/10 ≠ 0, h = 1/10 > 0 and initial state
(1, -1), the Euclidean norm of the generated trajectory strictly DECREASES
from index 0 to index 1, so the norm is not strictly increasing in k. -/
theorem euler_norm_not_increasing_cex :
    ((1 : ℚ) / 10 ≠ 0) ∧ ((0 : ℚ) < 1 / 10) ∧
    Real.sqrt ((normSq
        ((eulerRun ((1 : ℚ) / 10) (1 / 10) 1 (-1) 2 (fun _ => 0)
            (fun _ => 0)).1 1,
         (eulerRun ((1 : ℚ) / 10) (1 / 10) 1 (-1) 2 (fun _ => 0)
            (fun _ => 0)).2 1) : ℚ) : ℝ)
      < Real.sqrt ((normSq
        ((eulerRun ((1 : ℚ) / 10) (1 / 10) 1 (-1) 2 (fun _ => 0)
            (fun _ => 0)).1 0,
         (eulerRun ((1 : ℚ) / 10) (1 / 10) 1 (-1) 2 (fun _ => 0)
            (fun _ => 0)).2 0) : ℚ) : ℝ) := by
  have hr : List.range 1 = [0] := rfl
  have h1 : ((eulerRun ((1 : ℚ) / 10) (1 / 10) 1 (-1) 2 (fun _ => 0)
      (fun _ => 0)).1 1,
      (eulerRun ((1 : ℚ) / 10) (1 / 10) 1 (-1) 2 (fun _ => 0)
      (fun _ => 0)).2 1) = (9 / 10, -(1001 / 1000)) := by
    rw [eulerRun_apply ((1 : ℚ) / 10) (1 / 10) 1 (-1) (fun _ => 0)
      (fun _ => 0) 2 1 (by omega), Function.iterate_one]
    norm_num [eulerStep]
  have h0 : ((eulerRun ((1 : ℚ) / 10) (1 / 10) 1 (-1) 2 (fun _ => 0)
      (fun _ => 0)).1 0,
      (eulerRun ((1 : ℚ) / 10) (1 / 10) 1 (-1) 2 (fun _ => 0)
      (fun _ => 0)).2 0) = (1, -1) := by
    rw [eulerRun_apply ((1 : ℚ) / 10) (1 / 10) 1 (-1) (fun _ => 0)
      (fun _ => 0) 2 0 (by omega)]
    simp
  refine ⟨by norm_num, by norm_num, ?_⟩
  rw [show (eulerRun ((1 : ℚ) / 10) (1 / 10) 1 (-1) 2 (fun _ => 0)
      (fun _ => 0)).1 1 = 9 / 10 from congrArg Prod.fst h1,
    show (eulerRun ((1 : ℚ) / 10) (1 / 10) 1 (-1) 2 (fun _ => 0)
      (fun _ => 0)).2 1 = -(1001 / 1000) from congrArg Prod.snd h1,
    show (eulerRun ((1 : ℚ) / 10) (1 / 10) 1 (-1) 2 (fun _ => 0)
      (fun _ => 0)).1 0 = 1 from congrArg Prod.fst h0,
    show (eulerRun ((1 : ℚ) / 10) (1 / 10) 1 (-1) 2 (fun _ => 0)
      (fun _ => 0)).2 0 = -1 from congrArg Prod.snd h0]
  have hlt : (normSq ((9 : ℚ) / 10, -(1001 / 1000)) : ℚ)
      < normSq ((1 : ℚ), -1) := by
    norm_num [normSq]
  apply Real.sqrt_lt_sqrt
  · norm_num [normSq]
  · exact_mod_cast hlt

/-- C3 (amended): for ω ≠ 0, h > 0 and a nonzero initial state, every Euler
step along the generated trajectory multiplies the squared energy norm
ω²x² + y² by the factor 1 + h²ω², which exceeds 1, so that norm is strictly
increasing in k; the plain Euclidean norm need not increase at every step. -/
theorem euler_energy_strict_increase (ω h x0 y0 : ℚ) (jx jy : ℕ → ℚ)
    (N k : ℕ) (hω : ω ≠ 0) (hh : 0 < h)
    (hs : (x0, y0) ≠ ((0 : ℚ), (0 : ℚ))) (hk : k + 1 < N) :
    energySq ω ((eulerRun ω h x0 y0 N jx jy).1 (k + 1),
                (eulerRun ω h x0 y0 N jx jy).2 (k + 1))
      = (1 + h ^ 2 * ω ^ 2) *
        energySq ω ((eulerRun ω h x0 y0 N jx jy).1 k,
                    (eulerRun ω h x0 y0 N jx jy).2 k) ∧
    1 < 1 + h ^ 2 * ω ^ 2 ∧
    energySq ω ((eulerRun ω h x0 y0 N jx jy).1 k,
                (eulerRun ω h x0 y0 N jx jy).2 k)
      < energySq ω ((eulerRun ω h x0 y0 N jx jy).1 (k + 1),
                    (eulerRun ω h x0 y0 N jx jy).2 (k + 1)) := by
  have hk0 : k < N := by omega
  rw [eulerRun_apply ω h x0 y0 jx jy N (k + 1) hk,
    eulerRun_apply ω h x0 y0 jx jy N k hk0,
    Function.iterate_succ_apply', energySq_eulerStep]
  have hpos := energySq_iterate_pos ω h x0 y0 hω hs k
  have hfac : 1 < 1 + h ^ 2 * ω ^ 2 := by
    have hq : (0 : ℚ) < h ^ 2 * ω ^ 2 := by positivity
    linarith
  refine ⟨rfl, hfac, ?_⟩
  nlinarith

/-- Closed instance of the energy-norm growth at ω = 1, h = 1, initial state
(1, 0), N = 3, k = 0, junk contents 0. -/
theorem euler_energy_strict_increase_witness :
    energySq (1 : ℚ) ((eulerRun (1 : ℚ) 1 1 0 3 (fun _ => 0)
        (fun _ => 0)).1 1,
        (eulerRun (1 : ℚ) 1 1 0 3 (fun _ => 0) (fun _ => 0)).2 1)
      = (1 + (1 : ℚ) ^ 2 * 1 ^ 2) *
        energySq (1 : ℚ) ((eulerRun (1 : ℚ) 1 1 0 3 (fun _ => 0)
            (fun _ => 0)).1 0,
            (eulerRun (1 : ℚ) 1 1 0 3 (fun _ => 0) (fun _ => 0)).2 0) ∧
    1 < 1 + (1 : ℚ) ^ 2 * 1 ^ 2 ∧
    energySq (1 : ℚ) ((eulerRun (1 : ℚ) 1 1 0 3 (fun _ => 0)
        (fun _ => 0)).1 0,
        (eulerRun (1 : ℚ) 1 1 0 3 (fun _ => 0) (fun _ => 0)).2 0)
      < energySq (1 : ℚ) ((eulerRun (1 : ℚ) 1 1 0 3 (fun _ => 0)
          (fun _ => 0)).1 1,
          (eulerRun (1 : ℚ) 1 1 0 3 (fun _ => 0) (fun _ => 0)).2 1) :=
  euler_energy_strict_increase 1 1 1 0 (fun _ => 0) (fun _ => 0) 3 0
    one_ne_zero one_pos (by simp) (by simp)

/-- C10: the step size actually used in code cell 8 is t[-1]/t.size = 2π/N,
the spacing of the time grid of code cell 4 is 2π/(N-1), the two differ for
every N > 1, and the k-th Euler sample corresponds to time k·2π/N while the
grid point it is index-aligned with sits at time k·2π/(N-1). -/
theorem step_size_grid_mismatch (N : ℕ) (hN : 1 < N) :
    hUsed Real.pi N = 2 * Real.pi / (N : ℝ) ∧
    (∀ k : ℕ, tGrid Real.pi N (k + 1) - tGrid Real.pi N k
        = 2 * Real.pi / ((N : ℝ) - 1)) ∧
    hUsed Real.pi N ≠ 2 * Real.pi / ((N : ℝ) - 1) ∧
    (∀ k : ℕ, (k : ℝ) * hUsed Real.pi N = (k : ℝ) * (2 * Real.pi) / (N : ℝ) ∧
       tGrid Real.pi N k = (k : ℝ) * (2 * Real.pi) / ((N : ℝ) - 1)) := by
  have hc : ((N - 1 : ℕ) : ℝ) = (N : ℝ) - 1 := by
    rw [Nat.cast_sub (by omega : 1 ≤ N)]
    norm_num
  have hH := hUsed_eq Real.pi N hN
  have hN0 : (N : ℝ) ≠ 0 := by
    have hp : (0 : ℝ) < (N : ℝ) := by exact_mod_cast (by omega : 0 < N)
    exact ne_of_gt hp
  have hN1 : (N : ℝ) - 1 ≠ 0 := by
    have h2 : (2 : ℝ) ≤ (N : ℝ) := by exact_mod_cast hN
    intro hz
    rw [sub_eq_zero] at hz
    rw [hz] at h2
    norm_num at h2
  refine ⟨hH, ?_, ?_, ?_⟩
  · intro k
    simp only [tGrid, sub_zero, zero_add, hc]
    push_cast
    field_simp
    ring
  · rw [hH]
    intro heq
    rw [div_eq_div_iff hN0 hN1] at heq
    have hpi := Real.pi_pos
    nlinarith
  · intro k
    constructor
    · rw [hH]
      ring
    · simp only [tGrid, sub_zero, zero_add, hc]
      ring

/-- Closed instance of the step-size mismatch at N = 2. -/
theorem step_size_grid_mismatch_witness :
    hUsed Real.pi 2 = 2 * Real.pi / ((2 : ℕ) : ℝ) ∧
    (∀ k : ℕ, tGrid Real.pi 2 (k + 1) - tGrid Real.pi 2 k
        = 2 * Real.pi / (((2 : ℕ) : ℝ) - 1)) ∧
    hUsed Real.pi 2 ≠ 2 * Real.pi / (((2 : ℕ) : ℝ) - 1) ∧
    (∀ k : ℕ, (k : ℝ) * hUsed Real.pi 2
        = (k : ℝ) * (2 * Real.pi) / ((2 : ℕ) : ℝ) ∧
       tGrid Real.pi 2 k = (k : ℝ) * (2 * Real.pi) / (((2 : ℕ) : ℝ) - 1)) :=
  step_size_grid_mismatch 2 (by decide)

end Module04
